import Mathlib

/-!
# Verification of the `sod-auctions/auctions-db` data-access layer

Shallow embedding of the Go package `auctions_db` (files `main.go` and the
unnamed earlier revision `part_000`) together with proofs about the claims
of its specification.

The package is thin glue over a SQL client: struct-to-table mappings,
batch-chunked inserts, dynamically assembled query strings, and an
"atomic bulk replace" idiom (stage rows into a shadow `_temp` table, then
swap via three renames plus a truncate inside one transaction).

Modelling conventions:
* Go `int16`/`int32` fields are embedded as `Int`; the code never performs
  arithmetic on them (they are only copied and compared), so no modular
  reduction is needed.
* The database is modelled by explicit state (`List` of rows per table) and
  the outcome of each database call by a Boolean oracle; Go's `error`
  results become a Boolean `err` flag (`true` = a non-nil error returned).
* Query strings are reproduced verbatim from the Go source (the raw string
  literals including their newline/tab layout, assembled with the same
  `if`/`Sprintf` logic).
-/

set_option autoImplicit false
set_option maxRecDepth 10000

namespace AuctionsDb

universe u

/-! ## Data model (struct-to-table mappings from the Go source) -/

/-- `Auction` (`main.go` / `part_000`): one row of the append-only
`auctions` table. Composite primary key
(realm_id, auction_house_id, item_id, interval, timestamp). -/
structure Auction where
  realmID : Int
  auctionHouseID : Int
  itemID : Int
  interval : Int
  timestamp : Int
  quantity : Int
  min : Int
  max : Int
  p05 : Int
  p10 : Int
  p25 : Int
  p50 : Int
  p75 : Int
  p90 : Int
deriving DecidableEq, Repr

/-- `CurrentAuction` / `currentAuctionsTemp`: one row of `current_auctions`
(respectively `current_auctions_temp`; the two structs have identical
fields). Primary key (realm_id, auction_house_id, item_id) — no
interval/timestamp columns. -/
structure CurrentAuction where
  realmID : Int
  auctionHouseID : Int
  itemID : Int
  quantity : Int
  min : Int
  max : Int
  p05 : Int
  p10 : Int
  p25 : Int
  p50 : Int
  p75 : Int
  p90 : Int
deriving DecidableEq, Repr

/-- `PriceDistribution` / `priceDistributionTemp`: one row of
`price_distributions` (identical shape for the `_temp` shadow table). -/
structure PriceDistribution where
  realmID : Int
  auctionHouseID : Int
  itemID : Int
  buyoutEach : Int
  quantity : Int
deriving DecidableEq, Repr

/-- `Item` (`main.go`, richer schema variant): one row of `items`. -/
structure Item where
  id : Int
  name : String
  mediaURL : String
  rarity : String
  level : Int
  requiredLevel : Int
  purchasePrice : Int
  sellPrice : Int
deriving DecidableEq, Repr

/-- `PriceAverage` / `priceAverageTemp` (`main.go` only): one row of
`price_averages` (identical shape for the shadow table). `float32`
percent columns are embedded abstractly as `Int`-coded values; the code
only copies them, never computes with them. -/
structure PriceAverage where
  realmID : Int
  auctionHouseId : Int
  itemID : Int
  quantityCurrent : Int
  quantityAverage : Int
  quantityPercent : Int
  p05Current : Int
  p05Average : Int
  p05Percent : Int
  p10Current : Int
  p10Average : Int
  p10Percent : Int
  p25Current : Int
  p25Average : Int
  p25Percent : Int
  p50Current : Int
  p50Average : Int
  p50Percent : Int
  p75Current : Int
  p75Average : Int
  p75Percent : Int
  p90Current : Int
  p90Average : Int
  p90Percent : Int

/-- `NewDatabase` sets the default batch size: `BatchSize: 1000`. -/
def newDatabaseBatchSize : Int := 1000

/-- The primary key of `current_auctions`:
(realm_id, auction_house_id, item_id). -/
def currentAuctionKey (r : CurrentAuction) : Int × Int × Int :=
  (r.realmID, r.auctionHouseID, r.itemID)

/-! ## The batch-chunking loop

`InsertAuctions` and the stage phase of all three replace operations share
the loop

```go
for i := 0; i < len(xs); i += database.BatchSize {
    end := i + database.BatchSize
    if end > len(xs) { end = len(xs) }
    batch := xs[i:end]
    _, err := database.db.Model(&batch).Insert()
    if err != nil { return err }
}
```

`batchBodyLoopFuel` embeds the loop together with its body for
`BatchSize : Int` (Go's `BatchSize` is a signed `int` and may be set
non-positive through the public field): the guard `i < len`, the clamped
`end` computation, the Go slice expression `xs[i:end]` — which panics at
run time unless `0 ≤ i ≤ end` (`end ≤ len` holds by the clamp) — the
chunk insert whose success is an oracle, and the step `i += B`.
`insertChunksAux`/`insertChunks` embed the batches the loop slices out
(`xs[i:end]` with `end = min (i+B) len`) for a `Nat` batch size, fuelled
by `xs.length + 1`, which is enough fuel whenever `B ≥ 1`. -/

/-- Possible ways one run of the batch loop can halt. -/
inductive LoopOutcome where
  | completed
  | insertErr
  | panicked
deriving DecidableEq, Repr

/-- The loop body's `end` value: `end := i + B; if end > len { end = len }`. -/
def goSliceEnd (B len i : Int) : Int :=
  if i + B > len then len else i + B

/-- One run of the batch loop including its body.  `insertOk i e` tells
whether the chunk insert of the batch `xs[i:e]` returns nil.  `fuel`
bounds the number of iterations observed: `none` means the loop was still
running when the fuel ran out, `some` that it halted — normally
(`completed`, guard became false), with an insert error returned to the
caller (`insertErr`), or with a slice-bounds panic (`panicked`, the Go
runtime aborts when `xs[i:end]` has `end < i` or `i < 0`). -/
def batchBodyLoopFuel (B len : Int) (insertOk : Int → Int → Bool) :
    Nat → Int → Option LoopOutcome
  | 0, _ => none
  | fuel + 1, i =>
    if i < len then
      if 0 ≤ i ∧ i ≤ goSliceEnd B len i then
        if insertOk i (goSliceEnd B len i) then
          batchBodyLoopFuel B len insertOk fuel (i + B)
        else some LoopOutcome.insertErr
      else some LoopOutcome.panicked
    else some LoopOutcome.completed

/-- go-pg's bulk `Insert` of an empty slice returns an error
("pg: can't insert an empty slice") instead of succeeding; the batch
`xs[i:e]` is empty exactly when `i = e`.  Nonempty chunk inserts are taken
to succeed. -/
def goPgInsertOk (i e : Int) : Bool := i != e

/-- The chunks the Go batch loop slices out of `xs`, starting at index `i`,
with at most `fuel` further iterations: `xs[i:end]` with
`end = min (i + B) xs.length`, then `i += B`. -/
def insertChunksAux {α : Type u} (B : Nat) (xs : List α) : Nat → Nat → List (List α)
  | 0, _ => []
  | fuel + 1, i =>
    if i < xs.length then
      (xs.take (min (i + B) xs.length)).drop i :: insertChunksAux B xs fuel (i + B)
    else []

/-- The list of chunks produced by the Go batch loop on `xs` with batch size
`B` (started at `i = 0`; `xs.length + 1` iterations of fuel are enough
whenever the loop terminates, i.e. when `B ≥ 1` or `xs = []`). -/
def insertChunks {α : Type u} (B : Nat) (xs : List α) : List (List α) :=
  insertChunksAux B xs (xs.length + 1) 0

/-- Take/drop description of the same chunking, used as the proof-side
normal form: first `B` elements, then recurse on the rest. -/
def chunksGo {α : Type u} (B : Nat) (xs : List α) : List (List α) :=
  match B, xs with
  | _, [] => []
  | 0, _ :: _ => []
  | B + 1, x :: tl =>
    (x :: tl).take (B + 1) :: chunksGo (B + 1) ((x :: tl).drop (B + 1))
termination_by xs.length
decreasing_by
  simp only [List.length_drop, List.length_cons]
  omega

/-! ## Database operations, staging and the swap transaction

The observable effect of a replace operation is modelled by:
* a trace of the database operations it performed (`DbOp`),
* the contents of the live table and its `_temp` shadow table
  (`TableState`), and
* whether the Go function returned a non-nil error (`err : Bool`).

Whether each database call succeeds is an input (`insOk` for the chunk
inserts, `SwapOracle` for the six transaction steps); the Go code's control
flow on top of those outcomes is translated directly. -/

/-- One database operation issued by the package. -/
inductive DbOp where
  | insertChunk (size : Nat)
  | beginTx
  | renameLiveToTemp2
  | renameTempToLive
  | renameTemp2ToTemp
  | truncateTemp
  | commitTx
  | rollbackTx
deriving DecidableEq, Repr

/-- Outcome of the stage phase: operations performed, rows that reached the
target table, and whether every chunk insert succeeded. -/
structure StageResult (α : Type u) where
  trace : List DbOp
  inserted : List α
  ok : Bool
deriving DecidableEq, Repr

/-- The stage phase: insert the chunks in order (`k` numbers the chunks for
the `insOk` oracle); on the first failing chunk return the error
immediately, exactly like the Go loop's `if err != nil { return err }`.
A failing chunk insert leaves no rows behind (a single multi-row INSERT is
atomic). -/
def stageChunks {α : Type u} (insOk : Nat → Bool) : List (List α) → Nat → StageResult α
  | [], _ => ⟨[], [], true⟩
  | c :: cs, k =>
    if insOk k then
      let r := stageChunks insOk cs (k + 1)
      ⟨DbOp.insertChunk c.length :: r.trace, c ++ r.inserted, r.ok⟩
    else
      ⟨[DbOp.insertChunk c.length], [], false⟩

/-- Success/failure oracle for the six steps of the swap transaction. -/
structure SwapOracle where
  beginOk : Bool
  rename1Ok : Bool
  rename2Ok : Bool
  rename3Ok : Bool
  truncateOk : Bool
  commitOk : Bool
deriving DecidableEq, Repr

/-- The oracle under which every transaction step succeeds. -/
def SwapOracle.allOk : SwapOracle := ⟨true, true, true, true, true, true⟩

/-- Contents of a live table and its `_temp` shadow table. -/
structure TableState (α : Type u) where
  live : List α
  temp : List α
deriving DecidableEq, Repr

/-- Outcome of a replace operation (or of its swap transaction alone). -/
structure TxResult (α : Type u) where
  trace : List DbOp
  state : TableState α
  err : Bool
deriving DecidableEq, Repr

/-- The swap transaction as written in `main.go` (all three replace
operations): rename live→temp2, rename temp→live, rename temp2→temp,
truncate temp, commit — each step's error checked, with `tx.Rollback()`
and an error return on any failure.  Rolling back restores the pre-swap
state; committing installs the staged shadow contents as the live table
and leaves the shadow truncated. -/
def swapTx {α : Type u} (o : SwapOracle) (s : TableState α) : TxResult α :=
  if o.beginOk = false then
    ⟨[DbOp.beginTx, DbOp.rollbackTx], s, true⟩
  else if o.rename1Ok = false then
    ⟨[DbOp.beginTx, DbOp.renameLiveToTemp2, DbOp.rollbackTx], s, true⟩
  else if o.rename2Ok = false then
    ⟨[DbOp.beginTx, DbOp.renameLiveToTemp2, DbOp.renameTempToLive, DbOp.rollbackTx], s, true⟩
  else if o.rename3Ok = false then
    ⟨[DbOp.beginTx, DbOp.renameLiveToTemp2, DbOp.renameTempToLive, DbOp.renameTemp2ToTemp,
      DbOp.rollbackTx], s, true⟩
  else if o.truncateOk = false then
    ⟨[DbOp.beginTx, DbOp.renameLiveToTemp2, DbOp.renameTempToLive, DbOp.renameTemp2ToTemp,
      DbOp.truncateTemp, DbOp.rollbackTx], s, true⟩
  else if o.commitOk = false then
    ⟨[DbOp.beginTx, DbOp.renameLiveToTemp2, DbOp.renameTempToLive, DbOp.renameTemp2ToTemp,
      DbOp.truncateTemp, DbOp.commitTx, DbOp.rollbackTx], s, true⟩
  else
    ⟨[DbOp.beginTx, DbOp.renameLiveToTemp2, DbOp.renameTempToLive, DbOp.renameTemp2ToTemp,
      DbOp.truncateTemp, DbOp.commitTx], ⟨s.temp, []⟩, false⟩

/-- The swap transaction as written in `src/unnamed/part_000`
(`ReplacePriceDistributions` and `ReplaceCurrentAuctions` of that
revision): identical to `swapTx` except that the result of
`tx.Exec("TRUNCATE TABLE ..._temp")` is assigned to `err` and then
immediately overwritten by `err = tx.Commit()` without being checked.  A
failed TRUNCATE aborts the transaction, so the commit completes as a
rollback (restoring the pre-swap state) — but the function still returns
nil. -/
def swapTxRev0 {α : Type u} (o : SwapOracle) (s : TableState α) : TxResult α :=
  if o.beginOk = false then
    ⟨[DbOp.beginTx, DbOp.rollbackTx], s, true⟩
  else if o.rename1Ok = false then
    ⟨[DbOp.beginTx, DbOp.renameLiveToTemp2, DbOp.rollbackTx], s, true⟩
  else if o.rename2Ok = false then
    ⟨[DbOp.beginTx, DbOp.renameLiveToTemp2, DbOp.renameTempToLive, DbOp.rollbackTx], s, true⟩
  else if o.rename3Ok = false then
    ⟨[DbOp.beginTx, DbOp.renameLiveToTemp2, DbOp.renameTempToLive, DbOp.renameTemp2ToTemp,
      DbOp.rollbackTx], s, true⟩
  else if o.commitOk = false then
    ⟨[DbOp.beginTx, DbOp.renameLiveToTemp2, DbOp.renameTempToLive, DbOp.renameTemp2ToTemp,
      DbOp.truncateTemp, DbOp.commitTx, DbOp.rollbackTx], s, true⟩
  else if o.truncateOk then
    ⟨[DbOp.beginTx, DbOp.renameLiveToTemp2, DbOp.renameTempToLive, DbOp.renameTemp2ToTemp,
      DbOp.truncateTemp, DbOp.commitTx], ⟨s.temp, []⟩, false⟩
  else
    ⟨[DbOp.beginTx, DbOp.renameLiveToTemp2, DbOp.renameTempToLive, DbOp.renameTemp2ToTemp,
      DbOp.truncateTemp, DbOp.commitTx], s, false⟩

/-- Shared shape of the three replace operations: stage the (already
projected) rows into the shadow table in batches of `B`, return the first
insert error immediately, otherwise run the swap transaction
(`swapF` is `swapTx` for `main.go` and `swapTxRev0` for `part_000`). -/
def replaceRun {α : Type u} (swapF : SwapOracle → TableState α → TxResult α)
    (B : Nat) (insOk : Nat → Bool) (o : SwapOracle) (s : TableState α)
    (rows : List α) : TxResult α :=
  let st := stageChunks insOk (insertChunks B rows) 0
  let s1 : TableState α := ⟨s.live, s.temp ++ st.inserted⟩
  if st.ok = false then
    ⟨st.trace, s1, true⟩
  else
    let r := swapF o s1
    ⟨st.trace ++ r.trace, r.state, r.err⟩

/-! ## The named operations -/

/-- The projection `ReplaceCurrentAuctions` applies to each incoming
`*Auction` when building the `currentAuctionsTemp` slice: every field is
copied except `Interval` and `Timestamp`, which have no column in
`current_auctions`. -/
def auctionToCurrentTemp (v : Auction) : CurrentAuction :=
  { realmID := v.realmID
    auctionHouseID := v.auctionHouseID
    itemID := v.itemID
    quantity := v.quantity
    min := v.min
    max := v.max
    p05 := v.p05
    p10 := v.p10
    p25 := v.p25
    p50 := v.p50
    p75 := v.p75
    p90 := v.p90 }

/-- The field-for-field copy `ReplacePriceDistributions` performs from
`*PriceDistribution` into `priceDistributionTemp`. -/
def priceDistributionToTemp (v : PriceDistribution) : PriceDistribution :=
  { realmID := v.realmID
    auctionHouseID := v.auctionHouseID
    itemID := v.itemID
    buyoutEach := v.buyoutEach
    quantity := v.quantity }

/-- The field-for-field copy `ReplacePriceAverages` performs from
`*PriceAverage` into `priceAverageTemp`. -/
def priceAverageToTemp (v : PriceAverage) : PriceAverage :=
  { realmID := v.realmID
    auctionHouseId := v.auctionHouseId
    itemID := v.itemID
    quantityCurrent := v.quantityCurrent
    quantityAverage := v.quantityAverage
    quantityPercent := v.quantityPercent
    p05Current := v.p05Current
    p05Average := v.p05Average
    p05Percent := v.p05Percent
    p10Current := v.p10Current
    p10Average := v.p10Average
    p10Percent := v.p10Percent
    p25Current := v.p25Current
    p25Average := v.p25Average
    p25Percent := v.p25Percent
    p50Current := v.p50Current
    p50Average := v.p50Average
    p50Percent := v.p50Percent
    p75Current := v.p75Current
    p75Average := v.p75Average
    p75Percent := v.p75Percent
    p90Current := v.p90Current
    p90Average := v.p90Average
    p90Percent := v.p90Percent }

/-- `ReplaceCurrentAuctions` (`main.go`): build the projected slice with
`make`/`range` (a list map), stage it in batches into
`current_auctions_temp`, then run the checked swap transaction. -/
def replaceCurrentAuctionsRun (B : Nat) (insOk : Nat → Bool) (o : SwapOracle)
    (s : TableState CurrentAuction) (auctions : List Auction) : TxResult CurrentAuction :=
  replaceRun swapTx B insOk o s (auctions.map auctionToCurrentTemp)

/-- `ReplaceCurrentAuctions` of the `part_000` revision: same staging, swap
transaction with the unchecked TRUNCATE (`swapTxRev0`). -/
def replaceCurrentAuctionsRunRev0 (B : Nat) (insOk : Nat → Bool) (o : SwapOracle)
    (s : TableState CurrentAuction) (auctions : List Auction) : TxResult CurrentAuction :=
  replaceRun swapTxRev0 B insOk o s (auctions.map auctionToCurrentTemp)

/-- `ReplacePriceDistributions` (`main.go`). -/
def replacePriceDistributionsRun (B : Nat) (insOk : Nat → Bool) (o : SwapOracle)
    (s : TableState PriceDistribution) (rows : List PriceDistribution) :
    TxResult PriceDistribution :=
  replaceRun swapTx B insOk o s (rows.map priceDistributionToTemp)

/-- `ReplacePriceDistributions` of the `part_000` revision (unchecked
TRUNCATE). -/
def replacePriceDistributionsRunRev0 (B : Nat) (insOk : Nat → Bool) (o : SwapOracle)
    (s : TableState PriceDistribution) (rows : List PriceDistribution) :
    TxResult PriceDistribution :=
  replaceRun swapTxRev0 B insOk o s (rows.map priceDistributionToTemp)

/-- `ReplacePriceAverages` (`main.go` only). -/
def replacePriceAveragesRun (B : Nat) (insOk : Nat → Bool) (o : SwapOracle)
    (s : TableState PriceAverage) (rows : List PriceAverage) : TxResult PriceAverage :=
  replaceRun swapTx B insOk o s (rows.map priceAverageToTemp)

/-- Outcome of `InsertAuctions`: operations performed, resulting contents
of the append-only `auctions` table, and the error flag. -/
structure InsertRunResult where
  trace : List DbOp
  table : List Auction
  err : Bool
deriving DecidableEq, Repr

/-- `InsertAuctions`: the batch loop over the input slice, each chunk
inserted with its own statement; the first failing chunk's error is
returned immediately. -/
def insertAuctionsRun (B : Nat) (insOk : Nat → Bool) (table : List Auction)
    (auctions : List Auction) : InsertRunResult :=
  let st := stageChunks insOk (insertChunks B auctions) 0
  ⟨st.trace, table ++ st.inserted, !st.ok⟩

/-! ## Query strings

`GetCurrentAuctions` and `GetPriceAverages` assemble their SQL with
`fmt.Sprintf`; the literals below reproduce the Go raw-string templates
(including their newline/tab layout) and the same `if` logic for the
dynamic parts. -/

/-- `GetCurrentAuctions`: ORDER BY column allow-list — `"p50"` passes
through, anything else falls back to `"quantity"`. -/
def getCurrentAuctionsOrderBy (orderBy : String) : String :=
  if orderBy = "p50" then "p50" else "quantity"

/-- `GetCurrentAuctions`: direction allow-list — `"desc"` gives `DESC`,
anything else `ASC`. -/
def getCurrentAuctionsDirection (direction : String) : String :=
  if direction = "desc" then "DESC" else "ASC"

/-- The query `GetCurrentAuctions` (`main.go`) sends, as a function of the
caller-supplied sort column and direction. -/
def getCurrentAuctionsQuery (orderBy direction : String) : String :=
  "\n\t\tSELECT item_id, items.name AS item_name, items.media_url AS item_media_url, items.rarity AS item_rarity, \n\t\t       quantity, min, max, p05, p10, p25, p50, p75, p90\n\t\tFROM current_auctions\n\t\tINNER JOIN items ON item_id = items.id\n\t\tWHERE realm_id = ? AND auction_house_id = ?\n\t\tORDER BY "
    ++ getCurrentAuctionsOrderBy orderBy ++ " " ++ getCurrentAuctionsDirection direction
    ++ "\n\t\tOFFSET ? LIMIT ?\n\t"

/-- `GetPriceAverages`: direction — `"high"` gives `DESC`, anything else
`ASC`. -/
def getPriceAveragesDirection (sortBy : String) : String :=
  if sortBy = "high" then "DESC" else "ASC"

/-- The query `GetPriceAverages` (`main.go`) sends, as a function of the
caller-supplied sort value.  Note the template's clause order: the
`WHERE` clause is placed after `ORDER BY`. -/
def getPriceAveragesQuery (sortBy : String) : String :=
  "\n\t\tSELECT item_id, quantity_current, quantity_average, quantity_percent, p05_current, p05_average, p05_percent, \n\t\t       p10_current, p10_average, p10_percent, p25_current, p25_average, p25_percent, p50_current, p50_average, \n\t\t       p50_percent, p75_current, p75_average, p75_percent, p90_current, p90_average, p90_percent\n\t\tFROM price_averages\n\t\tORDER BY p05_percent "
    ++ getPriceAveragesDirection sortBy
    ++ "\n\t\tWHERE realm_id = ? AND auction_house_id = ?\n\t\tOFFSET ? LIMIT ?\n\t"

/-- Does `sub` occur at the head of `l`? -/
def leadsWith : List Char → List Char → Bool
  | [], _ => true
  | _ :: _, [] => false
  | a :: as, b :: bs => a == b && leadsWith as bs

/-- Index of the first occurrence of `sub` in `l`, if any. -/
def findSubIdx (sub : List Char) : List Char → Option Nat
  | [] => if sub.isEmpty then some 0 else none
  | c :: cs =>
    if leadsWith sub (c :: cs) then some 0
    else (findSubIdx sub cs).map (· + 1)

/-- Index of the first occurrence of substring `sub` in the string `q`. -/
def strIdxOf (q sub : String) : Option Nat :=
  findSubIdx sub.data q.data

/-! ## `GetItem` -/

/-- Errors of the modelled database client. -/
inductive PgErr where
  | noRows
  | execFailure
deriving DecidableEq, Repr

/-- go-pg's `Query.Select` into a single-struct model: when no row matches
it returns `pg.ErrNoRows` (a non-nil error); when a row matches it fills
the struct and returns nil.  `row` is the matching row of `items`, if
any. -/
def pgSelectOne (row : Option Item) : Except PgErr Item :=
  match row with
  | some it => Except.ok it
  | none => Except.error PgErr.noRows

/-- `GetItem` (`main.go`): runs the single-row select; on error returns
`(nil, err)`, otherwise `(item, nil)`.  The pair mirrors Go's
`(*Item, error)` — `none` in the first component is a nil pointer, `none`
in the second a nil error. -/
def GetItem (row : Option Item) : Option Item × Option PgErr :=
  match pgSelectOne row with
  | Except.error e => (none, some e)
  | Except.ok it => (some it, none)

/-! ## Lemmas about the chunking -/

theorem chunksGo_nil {α : Type u} (B : Nat) : chunksGo B ([] : List α) = [] := by
  cases B <;> simp [chunksGo]

theorem chunksGo_zero {α : Type u} (xs : List α) : chunksGo 0 xs = [] := by
  cases xs <;> simp [chunksGo]

theorem chunksGo_cons {α : Type u} {B : Nat} (hB : B ≠ 0) {xs : List α} (hxs : xs ≠ []) :
    chunksGo B xs = xs.take B :: chunksGo B (xs.drop B) := by
  match B, xs with
  | 0, _ => exact absurd rfl hB
  | _ + 1, [] => exact absurd rfl hxs
  | B + 1, x :: tl => simp [chunksGo]

/-- The indexed loop slices out exactly the take/drop chunks: from index `i`
the remaining chunks are those of `xs.drop i`, provided the fuel covers the
remaining length. -/
theorem insertChunksAux_eq_chunksGo {α : Type u} {B : Nat} (hB : 1 ≤ B) (xs : List α) :
    ∀ (fuel i : Nat), xs.length ≤ i + fuel →
      insertChunksAux B xs fuel i = chunksGo B (xs.drop i) := by
  intro fuel
  induction fuel with
  | zero =>
    intro i h
    have hd : xs.drop i = [] := List.drop_eq_nil_of_le (by omega)
    simp [insertChunksAux, hd, chunksGo_nil]
  | succ fuel ih =>
    intro i h
    by_cases hi : i < xs.length
    · have hne : xs.drop i ≠ [] := by
        intro hcon
        have hlen := congrArg List.length hcon
        simp only [List.length_drop, List.length_nil] at hlen
        omega
      rw [insertChunksAux, if_pos hi, chunksGo_cons (by omega) hne,
        ih (i + B) (by omega)]
      have hhead : (xs.take (min (i + B) xs.length)).drop i = (xs.drop i).take B := by
        rw [List.drop_take]
        have h1 : min (i + B) xs.length - i = min B (xs.length - i) := by omega
        rw [h1]
        rw [List.take_eq_take]
        simp only [List.length_take, List.length_drop]
        omega
      have htail : (xs.drop i).drop B = xs.drop (i + B) := by
        rw [List.drop_drop]
      rw [hhead, htail]
    · have hd : xs.drop i = [] := List.drop_eq_nil_of_le (by omega)
      rw [insertChunksAux, if_neg hi]
      simp [hd, chunksGo_nil]

/-- For a positive batch size the Go loop's chunks are exactly the take/drop
chunks. -/
theorem insertChunks_eq_chunksGo {α : Type u} {B : Nat} (hB : 1 ≤ B) (xs : List α) :
    insertChunks B xs = chunksGo B xs := by
  rw [insertChunks, insertChunksAux_eq_chunksGo hB xs (xs.length + 1) 0 (by omega)]
  simp

/-- Auxiliary strong induction on the length of the list, following the
recursion pattern of `chunksGo`. -/
theorem chunksGo_rec_aux {α : Type u} {B : Nat} (hB : 1 ≤ B)
    (P : List α → Prop) (hnil : P [])
    (hstep : ∀ xs : List α, xs ≠ [] → P (xs.drop B) → P xs) :
    ∀ (n : Nat) (xs : List α), xs.length ≤ n → P xs := by
  intro n
  induction n with
  | zero =>
    intro xs h
    have : xs = [] := by
      cases xs with
      | nil => rfl
      | cons a tl => simp at h
    simpa [this] using hnil
  | succ n ih =>
    intro xs h
    by_cases hxs : xs = []
    · simpa [hxs] using hnil
    · refine hstep xs hxs (ih (xs.drop B) ?_)
      have hx : 0 < xs.length := List.length_pos.mpr hxs
      simp only [List.length_drop]
      omega

/-- Concatenating the chunks recovers the input list. -/
theorem chunksGo_flatten {α : Type u} {B : Nat} (hB : 1 ≤ B) (xs : List α) :
    (chunksGo B xs).flatten = xs := by
  refine chunksGo_rec_aux hB (fun l => (chunksGo B l).flatten = l) ?_ ?_ xs.length xs le_rfl
  · simp [chunksGo_nil]
  · intro l hl ihl
    rw [chunksGo_cons (by omega) hl]
    simp only [List.flatten_cons]
    rw [ihl, List.take_append_drop]

/-- Ceiling-division step: removing one full-or-partial batch of size `B`
from a nonempty list decreases the batch count by exactly one. -/
theorem ceil_div_succ (n B : Nat) (hB : 1 ≤ B) (hn : 1 ≤ n) :
    (n - B + B - 1) / B + 1 = (n + B - 1) / B := by
  rcases Nat.le_total n B with hle | hge
  · have h2 : n - B = 0 := by omega
    rw [h2]
    have h3 : 0 + B - 1 = B - 1 := by omega
    rw [h3, Nat.div_eq_of_lt (by omega)]
    have h4 : n + B - 1 = (n - 1) + B := by omega
    rw [h4, Nat.add_div_right _ (by omega), Nat.div_eq_of_lt (by omega)]
  · have h3 : n - B + B - 1 = n - 1 := by omega
    have h4 : n + B - 1 = (n - 1) + B := by omega
    rw [h3, h4, Nat.add_div_right _ (by omega)]

/-- The number of chunks is `⌈length / B⌉`, written with the usual natural
division formula `(length + B - 1) / B`. -/
theorem chunksGo_length {α : Type u} {B : Nat} (hB : 1 ≤ B) (xs : List α) :
    (chunksGo B xs).length = (xs.length + B - 1) / B := by
  refine chunksGo_rec_aux hB
    (fun l => (chunksGo B l).length = (l.length + B - 1) / B) ?_ ?_ xs.length xs le_rfl
  · show (chunksGo B ([] : List α)).length = (List.length ([] : List α) + B - 1) / B
    rw [chunksGo_nil]
    simp only [List.length_nil, List.length_nil]
    symm
    exact Nat.div_eq_of_lt (by omega)
  · intro l hl ihl
    have hx : 0 < l.length := List.length_pos.mpr hl
    rw [chunksGo_cons (by omega) hl]
    simp only [List.length_cons, List.length_drop] at ihl ⊢
    rw [ihl]
    exact ceil_div_succ l.length B hB hx

/-- Every chunk is nonempty and no chunk exceeds the batch size. -/
theorem chunksGo_mem_length {α : Type u} {B : Nat} (hB : 1 ≤ B) (xs : List α) :
    ∀ c ∈ chunksGo B xs, c ≠ [] ∧ c.length ≤ B := by
  refine chunksGo_rec_aux hB
    (fun l => ∀ c ∈ chunksGo B l, c ≠ [] ∧ c.length ≤ B) ?_ ?_ xs.length xs le_rfl
  · simp [chunksGo_nil]
  · intro l hl ihl c hc
    rw [chunksGo_cons (by omega) hl] at hc
    rcases List.mem_cons.mp hc with hc1 | hc1
    · subst hc1
      have hx : 0 < l.length := List.length_pos.mpr hl
      constructor
      · intro hcon
        have hlen := congrArg List.length hcon
        simp only [List.length_take, List.length_nil] at hlen
        omega
      · simp only [List.length_take]
        omega
    · exact ihl c hc1

/-- Every chunk except the last has exactly `B` elements. -/
theorem chunksGo_dropLast_length {α : Type u} {B : Nat} (hB : 1 ≤ B) (xs : List α) :
    ∀ c ∈ (chunksGo B xs).dropLast, c.length = B := by
  refine chunksGo_rec_aux hB
    (fun l => ∀ c ∈ (chunksGo B l).dropLast, c.length = B) ?_ ?_ xs.length xs le_rfl
  · simp [chunksGo_nil]
  · intro l hl ihl c hc
    rw [chunksGo_cons (by omega) hl] at hc
    cases hrest : chunksGo B (l.drop B) with
    | nil => rw [hrest] at hc; simp at hc
    | cons d ds =>
      rw [hrest, List.dropLast_cons₂] at hc
      rcases List.mem_cons.mp hc with hc1 | hc1
      · subst hc1
        have hdne : l.drop B ≠ [] := by
          intro hcon
          rw [hcon, chunksGo_nil] at hrest
          exact List.noConfusion hrest
        have hlen : B < l.length := by
          by_contra hcon
          push_neg at hcon
          exact hdne (List.drop_eq_nil_of_le hcon)
        simp only [List.length_take]
        omega
      · rw [← hrest] at hc1
        exact ihl c hc1

/-! ## Lemmas about the batch loop with its body -/

/-- With a positive batch size a batch never has negative extent. -/
theorem goSliceEnd_ge {B len i : Int} (hB : 1 ≤ B) (hi : i < len) :
    i ≤ goSliceEnd B len i := by
  unfold goSliceEnd
  split <;> omega

/-- With a negative batch size the first iteration's `end` is just `B`,
which is negative. -/
theorem goSliceEnd_neg {B len : Int} (hB : B < 0) (hlen : 1 ≤ len) :
    goSliceEnd B len 0 = B := by
  unfold goSliceEnd
  rw [if_neg (by omega)]
  omega

/-- With `BatchSize = 0` every iteration's batch is `xs[0:0]`. -/
theorem goSliceEnd_zero {len : Int} (hlen : 1 ≤ len) :
    goSliceEnd 0 len 0 = 0 := by
  unfold goSliceEnd
  rw [if_neg (by omega)]
  omega

/-- With batch size at least `1` and every chunk insert succeeding, fuel
`remaining + 1` always completes the loop normally (each iteration
advances the index by at least `1`, and the slice bounds are in range). -/
theorem batchBodyLoopFuel_enough {B len : Int} (hB : 1 ≤ B) :
    ∀ (fuel : Nat) (i : Int), 0 ≤ i → len ≤ i + fuel →
      batchBodyLoopFuel B len (fun _ _ => true) (fuel + 1) i
        = some LoopOutcome.completed := by
  intro fuel
  induction fuel with
  | zero =>
    intro i h0 h
    simp only [Nat.cast_zero, add_zero] at h
    rw [batchBodyLoopFuel, if_neg (by omega)]
  | succ fuel ih =>
    intro i h0 h
    by_cases hguard : i < len
    · rw [batchBodyLoopFuel, if_pos hguard,
        if_pos ⟨h0, goSliceEnd_ge hB hguard⟩, if_pos rfl]
      refine ih (i + B) (by omega) ?_
      push_cast at h ⊢
      omega
    · rw [batchBodyLoopFuel, if_neg hguard]

/-- With a negative batch size and a nonempty slice, the first body
execution evaluates `xs[0:end]` with `end = B < 0` and panics, whatever
the insert oracle does. -/
theorem batchBodyLoopFuel_neg_panics {B len : Int} (hB : B < 0) (hlen : 1 ≤ len)
    (insertOk : Int → Int → Bool) (fuel : Nat) :
    batchBodyLoopFuel B len insertOk (fuel + 1) 0 = some LoopOutcome.panicked := by
  rw [batchBodyLoopFuel, if_pos (by omega), if_neg ?_]
  intro hcon
  obtain ⟨h1, h2⟩ := hcon
  rw [goSliceEnd_neg hB hlen] at h2
  omega

/-- With `BatchSize = 0`, a nonempty slice and empty-batch inserts
succeeding, the index stays at `0` forever: the guard never becomes false
and no amount of fuel halts the loop. -/
theorem batchBodyLoopFuel_zero_stuck {len : Int} (hlen : 1 ≤ len) :
    ∀ fuel : Nat, batchBodyLoopFuel 0 len (fun _ _ => true) fuel 0 = none := by
  intro fuel
  induction fuel with
  | zero => rfl
  | succ fuel ih =>
    rw [batchBodyLoopFuel, if_pos (by omega),
      if_pos ⟨le_refl 0, by rw [goSliceEnd_zero hlen]⟩, if_pos rfl]
    have harith : (0 : Int) + 0 = 0 := by omega
    rw [harith]
    exact ih

/-- With `BatchSize = 0`, a nonempty slice and go-pg's empty-insert error,
the first iteration's insert of `xs[0:0]` fails and the loop halts with
that error. -/
theorem batchBodyLoopFuel_zero_goPg {len : Int} (hlen : 1 ≤ len) (fuel : Nat) :
    batchBodyLoopFuel 0 len goPgInsertOk (fuel + 1) 0 = some LoopOutcome.insertErr := by
  rw [batchBodyLoopFuel, if_pos (by omega),
    if_pos ⟨le_refl 0, by rw [goSliceEnd_zero hlen]⟩, if_neg ?_]
  rw [goSliceEnd_zero hlen]
  simp [goPgInsertOk]

/-! ## Lemmas about the stage phase -/

/-- When every chunk insert succeeds, the stage phase performs one insert
per chunk and lands every row. -/
theorem stageChunks_allOk {α : Type u} {insOk : Nat → Bool}
    (h : ∀ j, insOk j = true) :
    ∀ (cs : List (List α)) (k : Nat),
      stageChunks insOk cs k =
        ⟨cs.map (fun c => DbOp.insertChunk c.length), cs.flatten, true⟩ := by
  intro cs
  induction cs with
  | nil => intro k; rfl
  | cons c cs ih =>
    intro k
    rw [stageChunks, if_pos (h k), ih (k + 1)]
    simp [List.flatten_cons]

/-- The stage phase succeeds exactly when every chunk's insert succeeds. -/
theorem stageChunks_ok_iff {α : Type u} (insOk : Nat → Bool) :
    ∀ (cs : List (List α)) (k : Nat),
      (stageChunks insOk cs k).ok = true ↔ ∀ j < cs.length, insOk (k + j) = true := by
  intro cs
  induction cs with
  | nil =>
    intro k
    simp [stageChunks]
  | cons c cs ih =>
    intro k
    by_cases hk : insOk k
    · rw [stageChunks, if_pos hk]
      simp only [List.length_cons]
      constructor
      · intro hok j hj
        rcases Nat.eq_zero_or_pos j with hj0 | hjpos
        · simpa [hj0] using hk
        · have := (ih (k + 1)).mp hok (j - 1) (by omega)
          have harith : k + 1 + (j - 1) = k + j := by omega
          rwa [harith] at this
      · intro hall
        refine (ih (k + 1)).mpr ?_
        intro j hj
        have := hall (j + 1) (by omega)
        have harith : k + (j + 1) = k + 1 + j := by omega
        rwa [harith] at this
    · rw [stageChunks, if_neg hk]
      simp only [List.length_cons]
      constructor
      · intro hcon
        exact absurd hcon (by simp)
      · intro hall
        exact absurd (hall 0 (by omega)) (by simpa using hk)

/-- Every operation the stage phase performs is a chunk insert: it touches
no other table and runs no transaction control. -/
theorem stageChunks_trace_inserts {α : Type u} (insOk : Nat → Bool) :
    ∀ (cs : List (List α)) (k : Nat),
      ∀ op ∈ (stageChunks insOk cs k).trace, ∃ n, op = DbOp.insertChunk n := by
  intro cs
  induction cs with
  | nil =>
    intro k op hop
    simp [stageChunks] at hop
  | cons c cs ih =>
    intro k op hop
    by_cases hk : insOk k
    · rw [stageChunks, if_pos hk] at hop
      rcases List.mem_cons.mp hop with h1 | h1
      · exact ⟨c.length, h1⟩
      · exact ih (k + 1) op h1
    · rw [stageChunks, if_neg hk] at hop
      rcases List.mem_cons.mp hop with h1 | h1
      · exact ⟨c.length, h1⟩
      · simp at h1

/-! ## Helper lemmas about `replaceRun` -/

/-- When the stage phase fails, a replace returns the stage trace and error
with nothing but the shadow-table append applied. -/
theorem replaceRun_stage_fail {α : Type u} (swapF : SwapOracle → TableState α → TxResult α)
    (B : Nat) (insOk : Nat → Bool) (o : SwapOracle) (s : TableState α) (rows : List α)
    (hok : (stageChunks insOk (insertChunks B rows) 0).ok = false) :
    replaceRun swapF B insOk o s rows =
      ⟨(stageChunks insOk (insertChunks B rows) 0).trace,
       ⟨s.live, s.temp ++ (stageChunks insOk (insertChunks B rows) 0).inserted⟩, true⟩ := by
  unfold replaceRun
  rw [if_pos hok]

/-- When the stage phase succeeds, a replace runs the swap transaction on
the state with the staged rows appended to the shadow table. -/
theorem replaceRun_stage_ok {α : Type u} (swapF : SwapOracle → TableState α → TxResult α)
    (B : Nat) (insOk : Nat → Bool) (o : SwapOracle) (s : TableState α) (rows : List α)
    (hok : (stageChunks insOk (insertChunks B rows) 0).ok = true) :
    replaceRun swapF B insOk o s rows =
      ⟨(stageChunks insOk (insertChunks B rows) 0).trace
         ++ (swapF o ⟨s.live, s.temp ++ (stageChunks insOk (insertChunks B rows) 0).inserted⟩).trace,
       (swapF o ⟨s.live, s.temp ++ (stageChunks insOk (insertChunks B rows) 0).inserted⟩).state,
       (swapF o ⟨s.live, s.temp ++ (stageChunks insOk (insertChunks B rows) 0).inserted⟩).err⟩ := by
  unfold replaceRun
  rw [if_neg (by rw [hok]; simp)]

/-- The fully successful path of a `main.go`-style replace: every chunk
inserted, the swap committed, and afterwards the live table holds exactly
the staged dataset while the shadow table is truncated. -/
theorem replaceRun_swapTx_allOk {α : Type u} {B : Nat} (hB : 1 ≤ B)
    (s : TableState α) (rows : List α) :
    replaceRun swapTx B (fun _ => true) SwapOracle.allOk s rows =
      ⟨(insertChunks B rows).map (fun c => DbOp.insertChunk c.length)
         ++ [DbOp.beginTx, DbOp.renameLiveToTemp2, DbOp.renameTempToLive,
             DbOp.renameTemp2ToTemp, DbOp.truncateTemp, DbOp.commitTx],
       ⟨s.temp ++ rows, []⟩, false⟩ := by
  have hst := @stageChunks_allOk _ (fun _ => true) (fun _ => rfl)
    (insertChunks B rows) 0
  have hfl : (insertChunks B rows).flatten = rows := by
    rw [insertChunks_eq_chunksGo hB]
    exact chunksGo_flatten hB rows
  rw [replaceRun_stage_ok swapTx B (fun _ => true) SwapOracle.allOk s rows
    (by rw [hst])]
  rw [hst]
  simp only [hfl]
  rfl

/-! ## Claim theorems -/

/-- C1: the claim states that for every replace operation, a failure of any
swap-transaction step (the three renames, the truncate, or the commit)
rolls the transaction back and surfaces a non-nil error, never returning
success.  This is false for the `part_000` revision: its
`ReplacePriceDistributions` (and `ReplaceCurrentAuctions`) assign the
TRUNCATE error to `err` and immediately overwrite it with
`err = tx.Commit()`, so a failed TRUNCATE followed by a successful commit
returns nil.  Evaluated here at such an input: the `part_000` run reports
no error (`err = false`) even though the truncate step failed, while the
`main.go` version of the same operation correctly reports the error. -/
theorem replacePriceDistributionsRev0_swallows_truncate_error :
    (replacePriceDistributionsRunRev0 1000 (fun _ => true)
        ⟨true, true, true, true, false, true⟩
        ⟨[⟨1, 2, 3, 40, 5⟩], []⟩ [⟨1, 2, 3, 50, 7⟩]).err = false ∧
    (replacePriceDistributionsRun 1000 (fun _ => true)
        ⟨true, true, true, true, false, true⟩
        ⟨[⟨1, 2, 3, 40, 5⟩], []⟩ [⟨1, 2, 3, 50, 7⟩]).err = true := by
  constructor <;> decide

/-- C2: the claim states that `GetPriceAverages` succeeds for every input
and returns the rows of the requested realm/auction-house pair ordered by
`p05_percent`.  The generated SQL, however, places the `WHERE` clause
after the `ORDER BY` clause (for either sort direction), which SQL
grammar rejects — the first occurrence of `ORDER BY` precedes the first
occurrence of `WHERE`, so the `WHERE` clause cannot be in its grammatical
position, and every call fails with a database error instead of
returning rows. -/
theorem getPriceAveragesQuery_malformed :
    (∀ sortBy, getPriceAveragesQuery sortBy = getPriceAveragesQuery "high" ∨
       getPriceAveragesQuery sortBy = getPriceAveragesQuery "low") ∧
    (∃ i j, strIdxOf (getPriceAveragesQuery "high") "ORDER BY" = some i ∧
       strIdxOf (getPriceAveragesQuery "high") "WHERE" = some j ∧ i < j) ∧
    (∃ i j, strIdxOf (getPriceAveragesQuery "low") "ORDER BY" = some i ∧
       strIdxOf (getPriceAveragesQuery "low") "WHERE" = some j ∧ i < j) := by
  refine ⟨?_, ⟨350, 378, by decide, by decide, by decide⟩,
    ⟨350, 377, by decide, by decide, by decide⟩⟩
  intro sortBy
  unfold getPriceAveragesQuery getPriceAveragesDirection
  by_cases h : sortBy = "high" <;> simp [h]

/-- Helper for C3: the four queries `GetCurrentAuctions` can emit all place
their `WHERE` clause (offset 234) before their `ORDER BY` clause
(offset 280), i.e. the allow-listed fallback keeps the query
well-formed. -/
theorem getCurrentAuctionsQuery_wellformed_concrete :
    strIdxOf (getCurrentAuctionsQuery "p50" "desc") "WHERE" = some 234 ∧
    strIdxOf (getCurrentAuctionsQuery "p50" "desc") "ORDER BY" = some 280 ∧
    strIdxOf (getCurrentAuctionsQuery "p50" "asc") "WHERE" = some 234 ∧
    strIdxOf (getCurrentAuctionsQuery "p50" "asc") "ORDER BY" = some 280 ∧
    strIdxOf (getCurrentAuctionsQuery "quantity" "desc") "WHERE" = some 234 ∧
    strIdxOf (getCurrentAuctionsQuery "quantity" "desc") "ORDER BY" = some 280 ∧
    strIdxOf (getCurrentAuctionsQuery "quantity" "asc") "WHERE" = some 234 ∧
    strIdxOf (getCurrentAuctionsQuery "quantity" "asc") "ORDER BY" = some 280 := by
  refine ⟨?_, ?_, ?_, ?_, ?_, ?_, ?_, ?_⟩ <;> decide

/-- C3: for every requested sort column and direction, `GetCurrentAuctions`
uses `p50` only when the request is exactly `"p50"` and falls back to the
default column `quantity` otherwise; it orders descending only when the
request is exactly `"desc"` and ascending otherwise; the emitted query is
always one of the four fixed allow-listed strings, so no other requested
value can reach the ORDER BY clause; and each of those four queries keeps
its clauses in grammatical order (`WHERE` before `ORDER BY`), so an
unrecognized value never makes the query fail. -/
theorem getCurrentAuctions_sort_allowlist (ob dir : String) :
    (getCurrentAuctionsOrderBy ob = "p50" ∨ getCurrentAuctionsOrderBy ob = "quantity") ∧
    (ob = "p50" → getCurrentAuctionsOrderBy ob = "p50") ∧
    (ob ≠ "p50" → getCurrentAuctionsOrderBy ob = "quantity") ∧
    (getCurrentAuctionsDirection dir = "DESC" ∨ getCurrentAuctionsDirection dir = "ASC") ∧
    (dir = "desc" → getCurrentAuctionsDirection dir = "DESC") ∧
    (dir ≠ "desc" → getCurrentAuctionsDirection dir = "ASC") ∧
    (getCurrentAuctionsQuery ob dir = getCurrentAuctionsQuery "p50" "desc" ∨
     getCurrentAuctionsQuery ob dir = getCurrentAuctionsQuery "p50" "asc" ∨
     getCurrentAuctionsQuery ob dir = getCurrentAuctionsQuery "quantity" "desc" ∨
     getCurrentAuctionsQuery ob dir = getCurrentAuctionsQuery "quantity" "asc") ∧
    strIdxOf (getCurrentAuctionsQuery ob dir) "WHERE" = some 234 ∧
    strIdxOf (getCurrentAuctionsQuery ob dir) "ORDER BY" = some 280 := by
  have hq : getCurrentAuctionsQuery ob dir = getCurrentAuctionsQuery "p50" "desc" ∨
      getCurrentAuctionsQuery ob dir = getCurrentAuctionsQuery "p50" "asc" ∨
      getCurrentAuctionsQuery ob dir = getCurrentAuctionsQuery "quantity" "desc" ∨
      getCurrentAuctionsQuery ob dir = getCurrentAuctionsQuery "quantity" "asc" := by
    unfold getCurrentAuctionsQuery getCurrentAuctionsOrderBy getCurrentAuctionsDirection
    by_cases h1 : ob = "p50" <;> by_cases h2 : dir = "desc" <;> simp [h1, h2]
  have hwf := getCurrentAuctionsQuery_wellformed_concrete
  refine ⟨?_, ?_, ?_, ?_, ?_, ?_, hq, ?_, ?_⟩
  · unfold getCurrentAuctionsOrderBy
    by_cases h1 : ob = "p50" <;> simp [h1]
  · intro h1
    unfold getCurrentAuctionsOrderBy
    simp [h1]
  · intro h1
    unfold getCurrentAuctionsOrderBy
    simp [h1]
  · unfold getCurrentAuctionsDirection
    by_cases h2 : dir = "desc" <;> simp [h2]
  · intro h2
    unfold getCurrentAuctionsDirection
    simp [h2]
  · intro h2
    unfold getCurrentAuctionsDirection
    simp [h2]
  · rcases hq with h | h | h | h <;> rw [h]
    · exact hwf.1
    · exact hwf.2.2.1
    · exact hwf.2.2.2.2.1
    · exact hwf.2.2.2.2.2.2.1
  · rcases hq with h | h | h | h <;> rw [h]
    · exact hwf.2.1
    · exact hwf.2.2.2.1
    · exact hwf.2.2.2.2.2.1
    · exact hwf.2.2.2.2.2.2.2

/-- Witness for C3: a concrete unrecognized sort column (`"buyout"`) and
direction (`"up"`) fall back to `quantity`/`ASC`. -/
theorem getCurrentAuctions_sort_allowlist_witness :
    getCurrentAuctionsOrderBy "buyout" = "quantity" ∧
    getCurrentAuctionsDirection "up" = "ASC" := by
  have h := getCurrentAuctions_sort_allowlist "buyout" "up"
  exact ⟨h.2.2.1 (by decide), h.2.2.2.2.2.1 (by decide)⟩

/-- C4: for every list of auctions and every batch size `B ≥ 1`,
`InsertAuctions` issues exactly `⌈N / B⌉` chunk insert operations; the
chunks partition the input in order (every chunk but the last has exactly
`B` records, no chunk is empty or oversized, and their concatenation is
the input); and when all chunks succeed the rows appended to the table
are exactly the input, independent of the choice of `B`. -/
theorem insertAuctions_chunking (B : Nat) (hB : 1 ≤ B) (table auctions : List Auction) :
    (insertChunks B auctions).length = (auctions.length + B - 1) / B ∧
    (insertChunks B auctions).flatten = auctions ∧
    (∀ c ∈ (insertChunks B auctions).dropLast, c.length = B) ∧
    (∀ c ∈ insertChunks B auctions, c ≠ [] ∧ c.length ≤ B) ∧
    (insertAuctionsRun B (fun _ => true) table auctions).trace
      = (insertChunks B auctions).map (fun c => DbOp.insertChunk c.length) ∧
    (insertAuctionsRun B (fun _ => true) table auctions).trace.length
      = (auctions.length + B - 1) / B ∧
    (insertAuctionsRun B (fun _ => true) table auctions).err = false ∧
    (insertAuctionsRun B (fun _ => true) table auctions).table = table ++ auctions := by
  have hbr := insertChunks_eq_chunksGo hB auctions
  have hst := @stageChunks_allOk _ (fun _ => true) (fun _ => rfl)
    (insertChunks B auctions) 0
  have hrun : insertAuctionsRun B (fun _ => true) table auctions =
      ⟨(insertChunks B auctions).map (fun c => DbOp.insertChunk c.length),
       table ++ (insertChunks B auctions).flatten, false⟩ := by
    unfold insertAuctionsRun
    rw [hst]
    rfl
  refine ⟨?_, ?_, ?_, ?_, ?_, ?_, ?_, ?_⟩
  · rw [hbr]; exact chunksGo_length hB auctions
  · rw [hbr]; exact chunksGo_flatten hB auctions
  · rw [hbr]; exact chunksGo_dropLast_length hB auctions
  · rw [hbr]; exact chunksGo_mem_length hB auctions
  · rw [hrun]
  · rw [hrun]
    show ((insertChunks B auctions).map (fun c => DbOp.insertChunk c.length)).length = _
    rw [List.length_map, hbr]
    exact chunksGo_length hB auctions
  · rw [hrun]
  · rw [hrun]
    show table ++ (insertChunks B auctions).flatten = table ++ auctions
    rw [hbr, chunksGo_flatten hB]

/-- Witness for C4: three records with batch size two give two chunks whose
concatenation is the input. -/
theorem insertAuctions_chunking_witness :
    (insertChunks 2 [(⟨1, 1, 1, 1, 1, 1, 1, 1, 1, 1, 1, 1, 1, 1⟩ : Auction),
        ⟨2, 1, 1, 1, 1, 1, 1, 1, 1, 1, 1, 1, 1, 1⟩,
        ⟨3, 1, 1, 1, 1, 1, 1, 1, 1, 1, 1, 1, 1, 1⟩]).length = 2 ∧
    (insertChunks 2 [(⟨1, 1, 1, 1, 1, 1, 1, 1, 1, 1, 1, 1, 1, 1⟩ : Auction),
        ⟨2, 1, 1, 1, 1, 1, 1, 1, 1, 1, 1, 1, 1, 1⟩,
        ⟨3, 1, 1, 1, 1, 1, 1, 1, 1, 1, 1, 1, 1, 1⟩]).flatten =
      [⟨1, 1, 1, 1, 1, 1, 1, 1, 1, 1, 1, 1, 1, 1⟩,
       ⟨2, 1, 1, 1, 1, 1, 1, 1, 1, 1, 1, 1, 1, 1⟩,
       ⟨3, 1, 1, 1, 1, 1, 1, 1, 1, 1, 1, 1, 1, 1⟩] := by
  have h := insertAuctions_chunking 2 (by decide) []
    [⟨1, 1, 1, 1, 1, 1, 1, 1, 1, 1, 1, 1, 1, 1⟩,
     ⟨2, 1, 1, 1, 1, 1, 1, 1, 1, 1, 1, 1, 1, 1⟩,
     ⟨3, 1, 1, 1, 1, 1, 1, 1, 1, 1, 1, 1, 1, 1⟩]
  exact ⟨h.1.trans (by decide), h.2.1⟩

/-- C5: for every replace operation (any swap implementation, so all three
`main.go` replaces and both `part_000` revisions), if some chunk insert of
the stage phase fails, the run returns a non-nil error, the live table is
exactly what it was before the call, every operation performed was a
chunk insert — in particular none of the three renames and no truncate
was performed — and the shadow table has only been appended to (it may be
left partially populated). -/
theorem replace_stage_failure_aborts {α : Type u}
    (swapF : SwapOracle → TableState α → TxResult α) (B : Nat) (insOk : Nat → Bool)
    (o : SwapOracle) (s : TableState α) (rows : List α)
    (hfail : ∃ k, k < (insertChunks B rows).length ∧ insOk k = false) :
    (replaceRun swapF B insOk o s rows).err = true ∧
    (replaceRun swapF B insOk o s rows).state.live = s.live ∧
    (∀ op ∈ (replaceRun swapF B insOk o s rows).trace, ∃ n, op = DbOp.insertChunk n) ∧
    DbOp.renameLiveToTemp2 ∉ (replaceRun swapF B insOk o s rows).trace ∧
    DbOp.renameTempToLive ∉ (replaceRun swapF B insOk o s rows).trace ∧
    DbOp.renameTemp2ToTemp ∉ (replaceRun swapF B insOk o s rows).trace ∧
    DbOp.truncateTemp ∉ (replaceRun swapF B insOk o s rows).trace ∧
    ∃ extra, (replaceRun swapF B insOk o s rows).state.temp = s.temp ++ extra := by
  obtain ⟨k, hk, hkf⟩ := hfail
  have hok : (stageChunks insOk (insertChunks B rows) 0).ok = false := by
    cases hcase : (stageChunks insOk (insertChunks B rows) 0).ok
    · rfl
    · have hcontra := (stageChunks_ok_iff insOk (insertChunks B rows) 0).mp hcase k hk
      rw [Nat.zero_add] at hcontra
      rw [hcontra] at hkf
      exact Bool.noConfusion hkf
  rw [replaceRun_stage_fail swapF B insOk o s rows hok]
  have htr := stageChunks_trace_inserts insOk (insertChunks B rows) 0
  refine ⟨rfl, rfl, htr, ?_, ?_, ?_, ?_, ⟨_, rfl⟩⟩
  all_goals
    intro hmem
    obtain ⟨n, hn⟩ := htr _ hmem
    exact DbOp.noConfusion hn

/-- Witness for C5: with an oracle whose chunk inserts all fail, a replace
of one price-distribution row over a one-row live table errors out and
leaves the live table untouched. -/
theorem replace_stage_failure_aborts_witness :
    (replaceRun swapTx 1 (fun _ => false) SwapOracle.allOk
        (⟨[⟨1, 1, 1, 10, 2⟩], []⟩ : TableState PriceDistribution)
        [⟨1, 1, 2, 20, 3⟩]).err = true ∧
    (replaceRun swapTx 1 (fun _ => false) SwapOracle.allOk
        (⟨[⟨1, 1, 1, 10, 2⟩], []⟩ : TableState PriceDistribution)
        [⟨1, 1, 2, 20, 3⟩]).state.live = [⟨1, 1, 1, 10, 2⟩] := by
  have h := replace_stage_failure_aborts swapTx 1 (fun _ => false) SwapOracle.allOk
    (⟨[⟨1, 1, 1, 10, 2⟩], []⟩ : TableState PriceDistribution)
    [⟨1, 1, 2, 20, 3⟩] ⟨0, by decide, rfl⟩
  exact ⟨h.1, h.2.1⟩

/-- C6: running `ReplaceCurrentAuctions` twice in succession with the same
dataset, both runs fully succeeding and the shadow table empty at the
start, leaves the live table holding exactly the (projected) dataset, and
the second run does not change the resulting table state at all. -/
theorem replaceCurrentAuctions_idempotent (B : Nat) (hB : 1 ≤ B)
    (s : TableState CurrentAuction) (hT : s.temp = []) (D : List Auction) :
    (replaceCurrentAuctionsRun B (fun _ => true) SwapOracle.allOk s D).err = false ∧
    (replaceCurrentAuctionsRun B (fun _ => true) SwapOracle.allOk s D).state.live
      = D.map auctionToCurrentTemp ∧
    (replaceCurrentAuctionsRun B (fun _ => true) SwapOracle.allOk
        (replaceCurrentAuctionsRun B (fun _ => true) SwapOracle.allOk s D).state D).err
      = false ∧
    (replaceCurrentAuctionsRun B (fun _ => true) SwapOracle.allOk
        (replaceCurrentAuctionsRun B (fun _ => true) SwapOracle.allOk s D).state D).state
      = (replaceCurrentAuctionsRun B (fun _ => true) SwapOracle.allOk s D).state := by
  have h1 : replaceCurrentAuctionsRun B (fun _ => true) SwapOracle.allOk s D =
      ⟨(insertChunks B (D.map auctionToCurrentTemp)).map (fun c => DbOp.insertChunk c.length)
         ++ [DbOp.beginTx, DbOp.renameLiveToTemp2, DbOp.renameTempToLive,
             DbOp.renameTemp2ToTemp, DbOp.truncateTemp, DbOp.commitTx],
       ⟨D.map auctionToCurrentTemp, []⟩, false⟩ := by
    unfold replaceCurrentAuctionsRun
    rw [replaceRun_swapTx_allOk hB s (D.map auctionToCurrentTemp), hT, List.nil_append]
  have h2 : replaceCurrentAuctionsRun B (fun _ => true) SwapOracle.allOk
      (⟨D.map auctionToCurrentTemp, []⟩ : TableState CurrentAuction) D =
      ⟨(insertChunks B (D.map auctionToCurrentTemp)).map (fun c => DbOp.insertChunk c.length)
         ++ [DbOp.beginTx, DbOp.renameLiveToTemp2, DbOp.renameTempToLive,
             DbOp.renameTemp2ToTemp, DbOp.truncateTemp, DbOp.commitTx],
       ⟨D.map auctionToCurrentTemp, []⟩, false⟩ := by
    unfold replaceCurrentAuctionsRun
    rw [replaceRun_swapTx_allOk hB ⟨D.map auctionToCurrentTemp, []⟩
      (D.map auctionToCurrentTemp), List.nil_append]
  refine ⟨?_, ?_, ?_, ?_⟩
  · rw [h1]
  · rw [h1]
  · simp only [h1, h2]
  · simp only [h1, h2]

/-- Witness for C6: a one-element dataset over an initially empty pair of
tables ends with the live table holding exactly its projection. -/
theorem replaceCurrentAuctions_idempotent_witness :
    (replaceCurrentAuctionsRun 1 (fun _ => true) SwapOracle.allOk ⟨[], []⟩
        [⟨1, 2, 3, 60, 1000, 5, 1, 9, 1, 2, 3, 4, 5, 6⟩]).state.live
      = [auctionToCurrentTemp ⟨1, 2, 3, 60, 1000, 5, 1, 9, 1, 2, 3, 4, 5, 6⟩] := by
  have h := replaceCurrentAuctions_idempotent 1 (by decide) ⟨[], []⟩ rfl
    [⟨1, 2, 3, 60, 1000, 5, 1, 9, 1, 2, 3, 4, 5, 6⟩]
  simpa using h.2.1

/-- C7: calling `ReplaceCurrentAuctions` with an empty dataset (swap steps
succeeding) completes without error, performs no chunk inserts, still
executes the swap (all three renames, the truncate and the commit appear
in the trace), and leaves the live `current_auctions` table empty, given
that the shadow table was empty before the call. -/
theorem replaceCurrentAuctions_empty_dataset (B : Nat) (insOk : Nat → Bool)
    (s : TableState CurrentAuction) (hT : s.temp = []) :
    (replaceCurrentAuctionsRun B insOk SwapOracle.allOk s []).err = false ∧
    (∀ n, DbOp.insertChunk n ∉ (replaceCurrentAuctionsRun B insOk SwapOracle.allOk s []).trace) ∧
    DbOp.renameLiveToTemp2 ∈ (replaceCurrentAuctionsRun B insOk SwapOracle.allOk s []).trace ∧
    DbOp.renameTempToLive ∈ (replaceCurrentAuctionsRun B insOk SwapOracle.allOk s []).trace ∧
    DbOp.renameTemp2ToTemp ∈ (replaceCurrentAuctionsRun B insOk SwapOracle.allOk s []).trace ∧
    DbOp.truncateTemp ∈ (replaceCurrentAuctionsRun B insOk SwapOracle.allOk s []).trace ∧
    DbOp.commitTx ∈ (replaceCurrentAuctionsRun B insOk SwapOracle.allOk s []).trace ∧
    (replaceCurrentAuctionsRun B insOk SwapOracle.allOk s []).state.live = [] := by
  have h : replaceCurrentAuctionsRun B insOk SwapOracle.allOk s [] =
      ⟨[DbOp.beginTx, DbOp.renameLiveToTemp2, DbOp.renameTempToLive, DbOp.renameTemp2ToTemp,
        DbOp.truncateTemp, DbOp.commitTx], ⟨[], []⟩, false⟩ := by
    unfold replaceCurrentAuctionsRun
    simp only [List.map_nil]
    rw [replaceRun_stage_ok swapTx B insOk SwapOracle.allOk s [] rfl]
    have h0 : stageChunks insOk (insertChunks B ([] : List CurrentAuction)) 0
        = ⟨[], [], true⟩ := rfl
    simp [h0, swapTx, SwapOracle.allOk, hT]
  refine ⟨?_, ?_, ?_, ?_, ?_, ?_, ?_, ?_⟩
  · rw [h]
  · intro n
    rw [h]
    simp
  · rw [h]; simp
  · rw [h]; simp
  · rw [h]; simp
  · rw [h]; simp
  · rw [h]; simp
  · rw [h]

/-- Witness for C7: over a concrete one-row live table with an empty
shadow, an empty dataset ends with an empty live table and no error. -/
theorem replaceCurrentAuctions_empty_dataset_witness :
    (replaceCurrentAuctionsRun 1000 (fun _ => true) SwapOracle.allOk
        ⟨[⟨1, 1, 1, 1, 1, 1, 1, 1, 1, 1, 1, 1⟩], []⟩ []).err = false ∧
    (replaceCurrentAuctionsRun 1000 (fun _ => true) SwapOracle.allOk
        ⟨[⟨1, 1, 1, 1, 1, 1, 1, 1, 1, 1, 1, 1⟩], []⟩ []).state.live = [] := by
  have h := replaceCurrentAuctions_empty_dataset 1000 (fun _ => true)
    ⟨[⟨1, 1, 1, 1, 1, 1, 1, 1, 1, 1, 1, 1⟩], []⟩ rfl
  exact ⟨h.1, h.2.2.2.2.2.2.2⟩

/-- C8, counterexample: the claim asserts that for `BatchSize ≤ 0` and a
nonempty input slice the batch loop does not terminate.  Running the
loop with its body on a one-record slice shows the opposite: at
`BatchSize = -1` the first iteration's slice expression `xs[0:end]` has
`end = -1 < 0` and the loop halts with a slice-bounds panic within two
units of fuel, and at `BatchSize = 0` the first iteration's bulk insert
of the empty batch `xs[0:0]` fails under go-pg's empty-insert error and
the loop halts returning that error — in neither regime does the loop
run forever. -/
theorem batchLoop_nontermination_counterexample :
    batchBodyLoopFuel (-1)
        (([(⟨1, 1, 1, 1, 1, 1, 1, 1, 1, 1, 1, 1, 1, 1⟩ : Auction)].length : Int))
        (fun _ _ => true) 2 0 = some LoopOutcome.panicked ∧
    batchBodyLoopFuel 0
        (([(⟨1, 1, 1, 1, 1, 1, 1, 1, 1, 1, 1, 1, 1, 1⟩ : Auction)].length : Int))
        goPgInsertOk 2 0 = some LoopOutcome.insertErr := by
  constructor <;> decide

/-- C8 (amended): the batch loop shared by `InsertAuctions` and the stage
phase of every replace operation, modelled with its body (slice bounds
check and chunk insert), completes normally if and only if the input
slice is empty or `BatchSize ≥ 1` (chunk inserts succeeding).  For
`BatchSize ≤ 0` and a nonempty slice the loop index never advances past
the slice, but the loop still halts rather than running forever: with
`BatchSize < 0` the first iteration's slice expression `xs[i:end]` has
`end < 0` and panics, for any insert oracle; with `BatchSize = 0` every
iteration stages the empty batch `xs[0:0]`, so under go-pg's
empty-insert error the first iteration returns an error — only if
empty-batch inserts succeeded would the loop never halt. -/
theorem batchLoop_terminates_characterization (B : Int) (xs : List Auction) :
    ((∃ fuel, batchBodyLoopFuel B (xs.length : Int) (fun _ _ => true) fuel 0
        = some LoopOutcome.completed) ↔ (xs = [] ∨ 1 ≤ B)) ∧
    (B < 0 → xs ≠ [] → ∀ (insertOk : Int → Int → Bool) (fuel : Nat),
      batchBodyLoopFuel B (xs.length : Int) insertOk (fuel + 1) 0
        = some LoopOutcome.panicked) ∧
    (B = 0 → xs ≠ [] → ∀ fuel : Nat,
      batchBodyLoopFuel B (xs.length : Int) goPgInsertOk (fuel + 1) 0
        = some LoopOutcome.insertErr) ∧
    (B = 0 → xs ≠ [] → ∀ fuel : Nat,
      batchBodyLoopFuel B (xs.length : Int) (fun _ _ => true) fuel 0 = none) := by
  have hlen : xs ≠ [] → 1 ≤ (xs.length : Int) := by
    intro hne
    have hpos := List.length_pos.mpr hne
    exact_mod_cast hpos
  refine ⟨?_, ?_, ?_, ?_⟩
  · constructor
    · rintro ⟨fuel, hfuel⟩
      by_contra hcon
      push_neg at hcon
      obtain ⟨hne, hB⟩ := hcon
      rcases lt_or_eq_of_le (show B ≤ 0 by omega) with hBneg | hB0
      · cases fuel with
        | zero => exact Option.noConfusion hfuel
        | succ f =>
          rw [batchBodyLoopFuel_neg_panics hBneg (hlen hne) _ f] at hfuel
          exact LoopOutcome.noConfusion (Option.some.inj hfuel)
      · subst hB0
        rw [batchBodyLoopFuel_zero_stuck (hlen hne) fuel] at hfuel
        exact Option.noConfusion hfuel
    · intro h
      rcases h with h | h
      · refine ⟨1, ?_⟩
        subst h
        rfl
      · refine ⟨xs.length + 1, ?_⟩
        exact batchBodyLoopFuel_enough h xs.length 0 le_rfl (by simp)
  · intro hB hne insertOk fuel
    exact batchBodyLoopFuel_neg_panics hB (hlen hne) insertOk fuel
  · intro hB hne fuel
    subst hB
    exact batchBodyLoopFuel_zero_goPg (hlen hne) fuel
  · intro hB hne fuel
    subst hB
    exact batchBodyLoopFuel_zero_stuck (hlen hne) fuel

/-- Witness for C8: at `BatchSize = -1` a one-record slice panics within
three units of fuel; at `BatchSize = 1000` the loop completes normally;
an empty slice completes even with a negative batch size. -/
theorem batchLoop_terminates_characterization_witness :
    batchBodyLoopFuel (-1)
        (([(⟨1, 1, 1, 1, 1, 1, 1, 1, 1, 1, 1, 1, 1, 1⟩ : Auction)].length : Int))
        (fun _ _ => true) 3 0 = some LoopOutcome.panicked ∧
    (∃ fuel, batchBodyLoopFuel 1000
        (([(⟨1, 1, 1, 1, 1, 1, 1, 1, 1, 1, 1, 1, 1, 1⟩ : Auction)].length : Int))
        (fun _ _ => true) fuel 0 = some LoopOutcome.completed) ∧
    (∃ fuel, batchBodyLoopFuel (-7) ((([] : List Auction).length : Int))
        (fun _ _ => true) fuel 0 = some LoopOutcome.completed) := by
  refine ⟨?_, ?_, ?_⟩
  · have h := batchLoop_terminates_characterization (-1)
      [⟨1, 1, 1, 1, 1, 1, 1, 1, 1, 1, 1, 1, 1, 1⟩]
    exact h.2.1 (by decide) (by decide) (fun _ _ => true) 2
  · have h := batchLoop_terminates_characterization 1000
      [⟨1, 1, 1, 1, 1, 1, 1, 1, 1, 1, 1, 1, 1, 1⟩]
    exact h.1.mpr (Or.inr (by decide))
  · have h := batchLoop_terminates_characterization (-7) ([] : List Auction)
    exact h.1.mpr (Or.inl rfl)

/-- C9: `ReplaceCurrentAuctions` stages exactly the projection of its input
that drops `Interval` and `Timestamp`: with every chunk insert succeeding
and a positive batch size, the rows that reach the shadow table are the
input mapped through `auctionToCurrentTemp`; that projection preserves
realm, auction house, item, quantity and the eight price percentiles
field-for-field; and two inputs that agree on everything except interval
and timestamp project to the same row and hence the same
`current_auctions` primary key. -/
theorem replaceCurrentAuctions_projection (B : Nat) (hB : 1 ≤ B) (auctions : List Auction)
    (a b : Auction)
    (h1 : a.realmID = b.realmID) (h2 : a.auctionHouseID = b.auctionHouseID)
    (h3 : a.itemID = b.itemID) (h4 : a.quantity = b.quantity) (h5 : a.min = b.min)
    (h6 : a.max = b.max) (h7 : a.p05 = b.p05) (h8 : a.p10 = b.p10) (h9 : a.p25 = b.p25)
    (h10 : a.p50 = b.p50) (h11 : a.p75 = b.p75) (h12 : a.p90 = b.p90) :
    (stageChunks (fun _ => true) (insertChunks B (auctions.map auctionToCurrentTemp)) 0).inserted
      = auctions.map auctionToCurrentTemp ∧
    (∀ v : Auction, (auctionToCurrentTemp v).realmID = v.realmID ∧
      (auctionToCurrentTemp v).auctionHouseID = v.auctionHouseID ∧
      (auctionToCurrentTemp v).itemID = v.itemID ∧
      (auctionToCurrentTemp v).quantity = v.quantity ∧
      (auctionToCurrentTemp v).min = v.min ∧
      (auctionToCurrentTemp v).max = v.max ∧
      (auctionToCurrentTemp v).p05 = v.p05 ∧
      (auctionToCurrentTemp v).p10 = v.p10 ∧
      (auctionToCurrentTemp v).p25 = v.p25 ∧
      (auctionToCurrentTemp v).p50 = v.p50 ∧
      (auctionToCurrentTemp v).p75 = v.p75 ∧
      (auctionToCurrentTemp v).p90 = v.p90) ∧
    auctionToCurrentTemp a = auctionToCurrentTemp b ∧
    currentAuctionKey (auctionToCurrentTemp a) = currentAuctionKey (auctionToCurrentTemp b) := by
  have hproj : auctionToCurrentTemp a = auctionToCurrentTemp b := by
    unfold auctionToCurrentTemp
    rw [h1, h2, h3, h4, h5, h6, h7, h8, h9, h10, h11, h12]
  refine ⟨?_, ?_, hproj, ?_⟩
  · have hst := @stageChunks_allOk _ (fun _ => true) (fun _ => rfl)
      (insertChunks B (auctions.map auctionToCurrentTemp)) 0
    rw [hst]
    show (insertChunks B (auctions.map auctionToCurrentTemp)).flatten = _
    rw [insertChunks_eq_chunksGo hB]
    exact chunksGo_flatten hB _
  · intro v
    exact ⟨rfl, rfl, rfl, rfl, rfl, rfl, rfl, rfl, rfl, rfl, rfl, rfl⟩
  · rw [hproj]

/-- Witness for C9: two concrete records differing only in interval and
timestamp project to the same `current_auctions` row. -/
theorem replaceCurrentAuctions_projection_witness :
    auctionToCurrentTemp ⟨1, 2, 3, 60, 1000, 5, 1, 9, 1, 2, 3, 4, 5, 6⟩
      = auctionToCurrentTemp ⟨1, 2, 3, 120, 2000, 5, 1, 9, 1, 2, 3, 4, 5, 6⟩ := by
  have h := replaceCurrentAuctions_projection 1 (by decide) []
    ⟨1, 2, 3, 60, 1000, 5, 1, 9, 1, 2, 3, 4, 5, 6⟩
    ⟨1, 2, 3, 120, 2000, 5, 1, 9, 1, 2, 3, 4, 5, 6⟩
    rfl rfl rfl rfl rfl rfl rfl rfl rfl rfl rfl rfl
  exact h.2.2.1

/-- C10: `GetItem` never returns a nil item together with a nil error: for
every possible query outcome it returns either a present item with no
error or no item with an error; in particular, when no row matches the id
the go-pg select reports `pg.ErrNoRows` and `GetItem` propagates it as
`(nil, err)` rather than `(nil, nil)`. -/
theorem getItem_never_nil_nil (row : Option Item) :
    (((GetItem row).1 ≠ none ∧ (GetItem row).2 = none) ∨
     ((GetItem row).1 = none ∧ (GetItem row).2 ≠ none)) ∧
    (row = none → GetItem row = (none, some PgErr.noRows)) ∧
    (∀ it, row = some it → GetItem row = (some it, none)) := by
  refine ⟨?_, ?_, ?_⟩ <;> cases row <;> simp [GetItem, pgSelectOne]

/-- Witness for C10: when no row matches, `GetItem` returns a nil item with
the no-rows error. -/
theorem getItem_never_nil_nil_witness :
    GetItem none = (none, some PgErr.noRows) := by
  have h := getItem_never_nil_nil none
  exact h.2.1 rfl

end AuctionsDb
